import Mathlib

/-!
Verification development for `anago/data/preprocess.py`.

Python strings are modelled as lists of characters (`PyStr`), Python dicts
mapping tokens to integer indices as insertion-ordered association lists
(`DictS`) looked up front-to-back (`dlookup`), and fallible Python code
(`KeyError` on dict subscription) as `Option`-valued functions, `none`
standing for a raised exception.
-/

set_option autoImplicit false

namespace Anago

/-- Python strings, modelled as lists of characters (one element per code
point, matching Python's `len`/iteration semantics). -/
abbrev PyStr := List Char

/-- Vocabulary dictionary: token to integer index, insertion ordered. -/
abbrev DictS := List (PyStr × Nat)

/-- Dictionary lookup, first entry wins (entries are never duplicated by the
insertion functions below, which check membership before appending). Models
Python `d[k]` / `d.get(k)` returning `none` where Python raises `KeyError` /
returns the default. -/
def dlookup {α : Type} [DecidableEq α] (k : α) : List (α × Nat) → Option Nat
  | [] => none
  | p :: ps => if p.1 = k then some p.2 else dlookup k ps

/-- Reverse lookup by value, modelling the dict comprehension
`\x7bi: t for t, i in d.items()\x7d` followed by subscription: a later pair with
the same value overwrites an earlier one, so the search starts from the tail. -/
def rlookup (i : Nat) : DictS → Option PyStr
  | [] => none
  | p :: ps =>
    match rlookup i ps with
    | some t => some t
    | none => if p.2 = i then some p.1 else none

/-- Modelled from the spec: the reserved UNKNOWN token. It is imported in the
source from `anago.data_utils` (shadowing the `anago.data.reader` import on
the previous line), neither module being available; only its identity as a
distinguished token matters, never its spelling. -/
def UNK : PyStr := ['$', 'U', 'N', 'K', '$']

/-- Modelled from the spec: the reserved PADDING token, imported in the source
from `anago.data.reader`. -/
def PAD : PyStr := ['$', 'P', 'A', 'D', '$']

/-- Modelled from the spec: the canonical-digit placeholder token, imported in
the source from `anago.data_utils`. -/
def NUM : PyStr := ['$', 'N', 'U', 'M', '$']

/-- Character class of the regex `[0-9０１２３４５６７８９]` used by
`digit_to_zero` and `_normalize_num`: the ten ASCII digits and the ten
full-width digit glyphs. -/
def digitClass (c : Char) : Bool :=
  ('0' ≤ c && c ≤ '9') ||
    (c == '０' || c == '１' || c == '２' || c == '３' || c == '４' ||
     c == '５' || c == '６' || c == '７' || c == '８' || c == '９')

/-- Source `digit_to_zero(word)`: `re.sub` over the single-character class
replaces each matching character by ASCII `'0'` and keeps the rest. -/
def digit_to_zero (word : PyStr) : PyStr :=
  word.map (fun c => if digitClass c then '0' else c)

/-- Python `str.lower()` applied when the `lowercase` flag is set, modelled
character-wise (the claims never depend on the case mapping of any specific
character). Mirrors `_lower` of `WordPreprocessor` and step 0 of the
`get_processing_word` closure. -/
def lowerWord (lowercase : Bool) (w : PyStr) : PyStr :=
  if lowercase then w.map Char.toLower else w

/-- Source `_normalize_num`: same regex substitution as `digit_to_zero`,
guarded by the `num_norm` flag. -/
def normalize_num (num_norm : Bool) (w : PyStr) : PyStr :=
  if num_norm then digit_to_zero w else w

/-- Normalization pipeline applied to a word before any vocabulary access:
optional lowercasing then optional digit folding. The `get_processing_word`
closure uses it with `num_norm = true` (its digit folding is unconditional). -/
def normWord (lowercase num_norm : Bool) (w : PyStr) : PyStr :=
  normalize_num num_norm (lowerWord lowercase w)

/-- Word-id step of the `get_processing_word` closure, the source line
`word = vocab_words.get(word, vocab_words.get(UNK, vocab_words[PAD]))`.
Python evaluates arguments eagerly, so `vocab_words[PAD]` is subscripted on
every call, before either `get` consults its key; a missing `PAD` key
therefore raises (`none`) regardless of `word`. -/
def processWordId (vw : DictS) (w : PyStr) : Option Nat :=
  match dlookup PAD vw with
  | none => none
  | some padId => some ((dlookup w vw).getD ((dlookup UNK vw).getD padId))

/-- Character-id loop of the `get_processing_word` closure:
characters absent from `vocab_chars` are skipped by the `if char in
vocab_chars` guard; for a present character the body `vocab_chars.get(char,
vocab_chars[UNK])` first evaluates its default `vocab_chars[UNK]` (eagerly,
raising when `UNK` is missing) and then returns `vocab_chars[char]`. -/
def charIdsClosure (vc : DictS) : PyStr → Option (List Nat)
  | [] => some []
  | c :: cs =>
    if (dlookup [c] vc).isSome then
      match dlookup UNK vc with
      | none => none
      | some u => (charIdsClosure vc cs).map (fun r => (dlookup [c] vc).getD u :: r)
    else charIdsClosure vc cs

/-- Dynamic return value of the closure's word component: an integer id when a
word vocabulary was supplied, otherwise the still-string normalized token. -/
inductive WordOut where
  | id : Nat → WordOut
  | str : PyStr → WordOut
deriving DecidableEq

/-- Dynamic result of the closure: a bare word value, or a pair of char ids
and word value when character features are active. -/
inductive PWRes where
  | wordOnly : WordOut → PWRes
  | withChars : List Nat → WordOut → PWRes
deriving DecidableEq

/-- Source `get_processing_word(vocab_words, vocab_chars, lowercase,
use_char)`: returns the closure `f`. Step order of `f` follows the source:
normalize, char ids (only when a char vocabulary is supplied and `use_char`),
word id (only when a word vocabulary is supplied), assemble result. -/
def get_processing_word (vocab_words vocab_chars : Option DictS)
    (lowercase use_char : Bool) : PyStr → Option PWRes :=
  fun word0 =>
    let word := normWord lowercase true word0
    match vocab_chars, use_char with
    | some vc, true =>
      match charIdsClosure vc word with
      | none => none
      | some cids =>
        match vocab_words with
        | some vw => (processWordId vw word).map (fun i => PWRes.withChars cids (WordOut.id i))
        | none => some (PWRes.withChars cids (WordOut.str word))
    | _, _ =>
      match vocab_words with
      | some vw => (processWordId vw word).map (fun i => PWRes.wordOnly (WordOut.id i))
      | none => some (PWRes.wordOnly (WordOut.str word))

/-- Keras `sequence.pad_sequences(_, maxlen, padding='post')` on one
sequence. The source passes `padding='post'` and leaves `truncating` at its
Keras default `'pre'`: the slice `s[-maxlen:]` keeps the last `maxlen`
entries of an over-long sequence, and zeros are appended up to `maxlen`. -/
def padSequencePost (maxlen : Nat) (s : List Nat) : List Nat :=
  let t := s.drop (s.length - maxlen)
  t ++ List.replicate (maxlen - t.length) 0

/-- Source `pad_words(xs, config)`: Keras `pad_sequences` with
`maxlen = config.num_steps`, here passed as the `maxlen` argument. -/
def pad_words (maxlen : Nat) (xs : List (List Nat)) : List (List Nat) :=
  xs.map (padSequencePost maxlen)

/-- Keras `to_categorical(y, num_classes)` on a single integer label: the
one-hot row of width `numClasses` with its 1 at index `label`. -/
def to_categorical (numClasses label : Nat) : List Nat :=
  (List.range numClasses).map (fun j => if j = label then 1 else 0)

/-- Source `to_onehot(ys, config, ntags)`: post-pad the label sequences with
`pad_sequences` (same call as `pad_words`), then expand every entry of every
padded sequence to a one-hot row. -/
def to_onehot (num_steps ntags : Nat) (ys : List (List Nat)) : List (List (List Nat)) :=
  (ys.map (padSequencePost num_steps)).map (fun y => y.map (to_categorical ntags))

/-- Per-word body of `pad_word_chars`: `padding = [0] * (max_word_len -
len(word))` (empty when the difference is negative, matching truncated
subtraction), `padded_word = word + padding`, result `padded_word[:max_word_len]`. -/
def padWordChar (max_word_len : Nat) (word : List Nat) : List Nat :=
  (word ++ List.replicate (max_word_len - word.length) 0).take max_word_len

/-- Source `pad_word_chars(words, max_word_len)`: applies the per-word body to
each word's character-id list, building a fresh list. -/
def pad_word_chars (words : List (List Nat)) (max_word_len : Nat) : List (List Nat) :=
  words.map (padWordChar max_word_len)

/-- Source `pad_words1(words, max_word_len, max_sent_len)`. The statement
`words += padding` extends the caller's list object in place, so the function
is modelled as a pair: first component the contents of the caller's argument
list after the call, second component the returned value `words[:max_sent_len]`. -/
def pad_words1 (words : List (List Nat)) (max_word_len max_sent_len : Nat) :
    List (List Nat) × List (List Nat) :=
  let padding := (List.range (max_sent_len - words.length)).map
    (fun _ => List.replicate max_word_len 0)
  let words2 := words ++ padding
  (words2, words2.take max_sent_len)

/-- Source `pad_chars(dataset, config)`: per sentence, character-pad each word
with `pad_word_chars` and then sentence-pad the fresh word list with
`pad_words1`, keeping the returned value. -/
def pad_chars (dataset : List (List (List Nat))) (max_word_len num_steps : Nat) :
    List (List (List Nat)) :=
  dataset.map (fun sent => (pad_words1 (pad_word_chars sent max_word_len) max_word_len num_steps).2)

/-- Dataset collaborator: parallel tokenized sentences and tag sequences. -/
structure Dataset where
  sents : List (List PyStr)
  labels : List (List PyStr)

/-- Source `get_vocabs(datasets)`: iterates `zip(dataset.sents,
dataset.labels)` updating a word set and a tag set with the raw tokens. The
Python sets are modelled as the lists of all collected tokens; set membership
corresponds to list membership and nothing below depends on order or
multiplicity. No lowercasing or other normalization is applied here. -/
def get_vocabs (datasets : List Dataset) : List PyStr × List PyStr :=
  ((datasets.map (fun d => ((d.sents.zip d.labels).map Prod.fst).flatten)).flatten,
   (datasets.map (fun d => ((d.sents.zip d.labels).map Prod.snd).flatten)).flatten)

/-- Word-collection stage of `build_vocab(dataset, config)`: the call
`get_vocabs([dataset.train, dataset.valid, dataset.test])`, before the GloVe
intersection, the re-adding of `UNK`/`NUM`, and the file round-trip. The
`processing_word = get_processing_word(lowercase=True)` built on the
function's first line is never applied to any token. -/
def build_vocab_words (train valid test : Dataset) : List PyStr :=
  (get_vocabs [train, valid, test]).1

/-- Stateful `WordPreprocessor`: configuration flags, optional seed
vocabulary, and the three vocabularies produced by `fit` (empty before any
`fit`, where the source holds `None`). -/
structure WordPreprocessor where
  lowercase : Bool
  num_norm : Bool
  char_feature : Bool
  vocab_init : List PyStr
  vocab_word : DictS
  vocab_char : DictS
  vocab_tag : DictS

/-- Dict insertion pattern of `fit`: `if k not in d: d[k] = len(d)`. -/
def insertNew (d : DictS) (k : PyStr) : DictS :=
  if (dlookup k d).isSome then d else d ++ [(k, d.length)]

/-- Character loop of `fit`: `for c in w: if c not in chars: chars[c] =
len(chars)`, each character keyed as the length-1 string Python iteration
yields. -/
def addChars (d : DictS) (w : PyStr) : DictS :=
  w.foldl (fun d c => insertNew d [c]) d

/-- One iteration of the main `fit` loop on the pair (words dict, chars dict):
normalize the raw word, insert it into the word dict if new, and (when
`char_feature`) insert each of its characters into the char dict. -/
def fitStep (lower num_norm charFeat : Bool) (acc : DictS × DictS) (w0 : PyStr) :
    DictS × DictS :=
  let w := normWord lower num_norm w0
  (insertNew acc.1 w, if charFeat then addChars acc.2 w else acc.2)

/-- Source `WordPreprocessor.fit(X, y)`: word and char dicts are seeded with
`UNK ↦ 0`; the main loop runs over `set(itertools.chain(*X)) |
set(self.vocab_init)`, whose iteration order Python leaves unspecified —
because every insertion is membership-guarded, folding over the concatenation
flattened `X` followed by `vocab_init` produces the dicts of the
first-occurrence iteration order, one admissible order (and the invariants
proved below hold for every order). The tag dict is built from
`itertools.chain(*y)` directly, with no set and no normalization. -/
def WordPreprocessor.fit (p : WordPreprocessor) (X y : List (List PyStr)) :
    WordPreprocessor :=
  let wc := (X.flatten ++ p.vocab_init).foldl
    (fitStep p.lowercase p.num_norm p.char_feature) ([(UNK, 0)], [(UNK, 0)])
  let tags := y.flatten.foldl insertNew []
  { p with vocab_word := wc.1, vocab_char := wc.2, vocab_tag := tags }

/-- Option-valued traversal modelling a Python comprehension whose body may
raise: the first raising element aborts the whole computation (`none`). -/
def omap {α β : Type} (f : α → Option β) : List α → Option (List β)
  | [] => some []
  | a :: as =>
    match f a with
    | none => none
    | some b => (omap f as).map (fun bs => b :: bs)

/-- Word-id computation of `transform`: `vocab_word[w]` when present,
otherwise `vocab_word[UNK]` (raising only when `UNK` itself is absent, which
`fit` makes impossible). -/
def transformWordId (vw : DictS) (w : PyStr) : Option Nat :=
  match dlookup w vw with
  | some i => some i
  | none => dlookup UNK vw

/-- Source `_get_char_ids(word)`: the comprehension `[vocab_char.get(c,
vocab_char[UNK]) for c in word]`. The default `vocab_char[UNK]` is evaluated
eagerly for every character — present or not — and an absent character is
replaced by the UNK id, never skipped. -/
def getCharIds (vc : DictS) : PyStr → Option (List Nat)
  | [] => some []
  | c :: cs =>
    match dlookup UNK vc with
    | none => none
    | some u => (getCharIds vc cs).map (fun r => (dlookup [c] vc).getD u :: r)

/-- Dynamic per-sentence result of `transform`: a bare word-id list, or the
pair `(char_word_ids, word_ids)` when character features are active. -/
inductive TSent where
  | plain : List Nat → TSent
  | withChars : List (List Nat) → List Nat → TSent
deriving DecidableEq

/-- Inner word loop of `transform` over one sentence, accumulating word ids
and (when `char_feature`) per-word char-id lists, in source order: word id
first, then char ids. -/
def transformWords (p : WordPreprocessor) : List PyStr → Option (List Nat × List (List Nat))
  | [] => some ([], [])
  | w0 :: ws =>
    let w := normWord p.lowercase p.num_norm w0
    match transformWordId p.vocab_word w with
    | none => none
    | some wid =>
      if p.char_feature then
        match getCharIds p.vocab_char w with
        | none => none
        | some cids => (transformWords p ws).map (fun r => (wid :: r.1, cids :: r.2))
      else (transformWords p ws).map (fun r => (wid :: r.1, r.2))

/-- Per-sentence assembly of `transform`: `(char_word_ids, word_ids)` when
character features are active, else `word_ids` alone. -/
def transformSent (p : WordPreprocessor) (sent : List PyStr) : Option TSent :=
  (transformWords p sent).map
    (fun r => if p.char_feature then TSent.withChars r.2 r.1 else TSent.plain r.1)

/-- Tag mapping of `transform` over one label sequence: direct lookup
`vocab_tag[t]`, no fallback. -/
def transformTags (vt : DictS) (sent : List PyStr) : Option (List Nat) :=
  omap (fun t => dlookup t vt) sent

/-- Source `WordPreprocessor.transform(X, y)`: all sentences are processed
first, then every label sequence is mapped through `vocab_tag`. -/
def WordPreprocessor.transform (p : WordPreprocessor) (X y : List (List PyStr)) :
    Option (List TSent × List (List Nat)) :=
  match omap (transformSent p) X with
  | none => none
  | some sents =>
    match omap (transformTags p.vocab_tag) y with
    | none => none
    | some ys => some (sents, ys)

/-- Source `WordPreprocessor.inverse_transform(y)`: invert `vocab_tag` by a
dict comprehension (later pairs overwrite, see `rlookup`) and subscript it
with each id. -/
def WordPreprocessor.inverse_transform (p : WordPreprocessor) (y : List Nat) :
    Option (List PyStr) :=
  omap (fun i => rlookup i p.vocab_tag) y

end Anago

namespace Anago

/-! Basic lemmas about the dictionary model. -/

theorem dlookup_append_some {k : PyStr} {d : DictS} {v : Nat} (e : DictS)
    (h : dlookup k d = some v) : dlookup k (d ++ e) = some v := by
  induction d with
  | nil => simp [dlookup] at h
  | cons p ps ih =>
    by_cases hp : p.1 = k
    · simpa [dlookup, hp] using h
    · simp only [List.cons_append, dlookup, if_neg hp] at h ⊢
      exact ih h

theorem dlookup_append_none {k : PyStr} {d : DictS} (e : DictS)
    (h : dlookup k d = none) : dlookup k (d ++ e) = dlookup k e := by
  induction d with
  | nil => simp
  | cons p ps ih =>
    by_cases hp : p.1 = k
    · simp [dlookup, hp] at h
    · simp only [dlookup, if_neg hp] at h
      simpa only [List.cons_append, dlookup, if_neg hp] using ih h

theorem dlookup_mem_vals {k : PyStr} {d : DictS} {v : Nat}
    (h : dlookup k d = some v) : v ∈ d.map Prod.snd := by
  induction d with
  | nil => simp [dlookup] at h
  | cons p ps ih =>
    by_cases hp : p.1 = k
    · simp only [dlookup, if_pos hp, Option.some.injEq] at h
      simp [← h]
    · simp only [dlookup, if_neg hp] at h
      simp [ih h]

theorem dlookup_none_of_not_mem_keys {k : PyStr} {d : DictS}
    (h : k ∉ d.map Prod.fst) : dlookup k d = none := by
  induction d with
  | nil => rfl
  | cons p ps ih =>
    simp only [List.map_cons, List.mem_cons, not_or] at h
    have hne : ¬p.1 = k := fun he => h.1 he.symm
    simp only [dlookup, if_neg hne]
    exact ih h.2

theorem dlookup_isSome_of_mem_keys {k : PyStr} {d : DictS}
    (h : k ∈ d.map Prod.fst) : (dlookup k d).isSome := by
  induction d with
  | nil => simp at h
  | cons p ps ih =>
    by_cases hp : p.1 = k
    · simp [dlookup, hp]
    · simp only [List.map_cons, List.mem_cons] at h
      rcases h with h | h
      · exact absurd h.symm hp
      · simpa only [dlookup, if_neg hp] using ih h

theorem rlookup_none_of_not_mem_vals {i : Nat} {d : DictS}
    (h : i ∉ d.map Prod.snd) : rlookup i d = none := by
  induction d with
  | nil => rfl
  | cons p ps ih =>
    simp only [List.map_cons, List.mem_cons, not_or] at h
    have hne : ¬p.2 = i := fun he => h.1 he.symm
    simp only [rlookup, ih h.2, if_neg hne]

/-- With pairwise-distinct values, the inverted dictionary sends the id of a
key back to that key. -/
theorem rlookup_dlookup {k : PyStr} {d : DictS} {i : Nat}
    (hvals : (d.map Prod.snd).Nodup) (h : dlookup k d = some i) :
    rlookup i d = some k := by
  induction d with
  | nil => simp [dlookup] at h
  | cons p ps ih =>
    simp only [List.map_cons, List.nodup_cons] at hvals
    by_cases hp : p.1 = k
    · simp only [dlookup, if_pos hp, Option.some.injEq] at h
      have hnot : i ∉ ps.map Prod.snd := h ▸ hvals.1
      simp [rlookup, rlookup_none_of_not_mem_vals hnot, h, hp]
    · simp only [dlookup, if_neg hp] at h
      simp [rlookup, ih hvals.2 h]

/-! Lemmas about the membership-guarded insertion used by `fit`. -/

theorem insertNew_pres {k : PyStr} {d : DictS} {v : Nat} (a : PyStr)
    (h : dlookup k d = some v) : dlookup k (insertNew d a) = some v := by
  unfold insertNew
  split
  · exact h
  · exact dlookup_append_some _ h

theorem insertNew_self (d : DictS) (a : PyStr) :
    (dlookup a (insertNew d a)).isSome := by
  unfold insertNew
  split
  next h => exact h
  next h =>
    rw [dlookup_append_none _ (Option.not_isSome_iff_eq_none.mp h)]
    simp [dlookup]

theorem insertNew_vals {d : DictS} (a : PyStr)
    (h : d.map Prod.snd = List.range d.length) :
    (insertNew d a).map Prod.snd = List.range (insertNew d a).length := by
  unfold insertNew
  split
  · exact h
  · simp [h, List.range_succ]

theorem insertNew_keys {d : DictS} (a : PyStr)
    (h : (d.map Prod.fst).Nodup) :
    ((insertNew d a).map Prod.fst).Nodup := by
  unfold insertNew
  split
  · exact h
  next hne =>
    have : a ∉ d.map Prod.fst := fun hm =>
      hne (dlookup_isSome_of_mem_keys hm)
    simp [List.nodup_append, h, this]

/-! Lemmas about the option-valued traversal `omap`. -/

theorem omap_isSome_all {α β : Type} (f : α → Option β) (l : List α) :
    (omap f l).isSome = l.all (fun a => (f a).isSome) := by
  induction l with
  | nil => rfl
  | cons a as ih =>
    cases h : f a with
    | none => simp [omap, h]
    | some b => simp [omap, h, ih]

theorem omap_total {α β : Type} {f : α → Option β} {l : List α}
    (h : ∀ a ∈ l, (f a).isSome) : ∃ bs, omap f l = some bs := by
  rw [← Option.isSome_iff_exists, omap_isSome_all]
  simpa using h

theorem all_congr_of_eq {α : Type} {f g : α → Bool} (l : List α)
    (h : ∀ a ∈ l, f a = g a) : l.all f = l.all g := by
  induction l with
  | nil => rfl
  | cons a as ih =>
    simp only [List.all_cons, h a (by simp)]
    rw [ih (fun b hb => h b (by simp [hb]))]

end Anago

namespace Anago

/-! One-hot helper lemmas. -/

theorem to_categorical_succ_zero (n : Nat) :
    to_categorical (n + 1) 0 = 1 :: List.replicate n 0 := by
  simp only [to_categorical, List.range_succ_eq_map, List.map_cons, List.map_map,
    if_pos rfl]
  congr 1
  have : ∀ j : Nat, ((fun j => if j = 0 then 1 else 0) ∘ Nat.succ) j = (0 : Nat) := by
    intro j; simp [Function.comp]
  calc List.map ((fun j => if j = 0 then 1 else 0) ∘ Nat.succ) (List.range n)
      = List.map (fun _ => (0 : Nat)) (List.range n) := List.map_congr_left (fun j _ => this j)
    _ = List.replicate n 0 := by
        rw [List.map_const']
        simp

theorem getD_replicate_of_lt (a : List Nat) {k j : Nat} (h : j < k) :
    (List.replicate k a).getD j [] = a := by
  induction k generalizing j with
  | zero => omega
  | succ k ih =>
    cases j with
    | zero => simp [List.replicate_succ]
    | succ j =>
      simp only [List.replicate_succ, List.getD_cons_succ]
      exact ih (by omega)

end Anago

namespace Anago

/-! Invariant lemmas for the `fit` folds. -/

theorem addChars_pres {k : PyStr} {d : DictS} {v : Nat} (w : PyStr)
    (h : dlookup k d = some v) : dlookup k (addChars d w) = some v := by
  induction w generalizing d with
  | nil => exact h
  | cons c cs ih => exact ih (insertNew_pres _ h)

theorem addChars_vals {d : DictS} (w : PyStr)
    (h : d.map Prod.snd = List.range d.length) :
    (addChars d w).map Prod.snd = List.range (addChars d w).length := by
  induction w generalizing d with
  | nil => exact h
  | cons c cs ih => exact ih (insertNew_vals _ h)

theorem addChars_keys {d : DictS} (w : PyStr)
    (h : (d.map Prod.fst).Nodup) : ((addChars d w).map Prod.fst).Nodup := by
  induction w generalizing d with
  | nil => exact h
  | cons c cs ih => exact ih (insertNew_keys _ h)

theorem fitFold_fst_pres {k : PyStr} {v : Nat} (lo nn cf : Bool)
    (ws : List PyStr) (acc : DictS × DictS) (h : dlookup k acc.1 = some v) :
    dlookup k ((ws.foldl (fitStep lo nn cf) acc)).1 = some v := by
  induction ws generalizing acc with
  | nil => exact h
  | cons w rest ih =>
    exact ih (fitStep lo nn cf acc w) (insertNew_pres _ h)

theorem fitFold_snd_pres {k : PyStr} {v : Nat} (lo nn cf : Bool)
    (ws : List PyStr) (acc : DictS × DictS) (h : dlookup k acc.2 = some v) :
    dlookup k ((ws.foldl (fitStep lo nn cf) acc)).2 = some v := by
  induction ws generalizing acc with
  | nil => exact h
  | cons w rest ih =>
    refine ih (fitStep lo nn cf acc w) ?_
    simp only [fitStep]
    split
    · exact addChars_pres _ h
    · exact h

theorem fitFold_fst_vals (lo nn cf : Bool) (ws : List PyStr) (acc : DictS × DictS)
    (h : acc.1.map Prod.snd = List.range acc.1.length) :
    ((ws.foldl (fitStep lo nn cf) acc)).1.map Prod.snd =
      List.range ((ws.foldl (fitStep lo nn cf) acc)).1.length := by
  induction ws generalizing acc with
  | nil => exact h
  | cons w rest ih => exact ih _ (insertNew_vals _ h)

theorem fitFold_snd_vals (lo nn cf : Bool) (ws : List PyStr) (acc : DictS × DictS)
    (h : acc.2.map Prod.snd = List.range acc.2.length) :
    ((ws.foldl (fitStep lo nn cf) acc)).2.map Prod.snd =
      List.range ((ws.foldl (fitStep lo nn cf) acc)).2.length := by
  induction ws generalizing acc with
  | nil => exact h
  | cons w rest ih =>
    refine ih _ ?_
    simp only [fitStep]
    split
    · exact addChars_vals _ h
    · exact h

theorem fitFold_fst_keys (lo nn cf : Bool) (ws : List PyStr) (acc : DictS × DictS)
    (h : (acc.1.map Prod.fst).Nodup) :
    (((ws.foldl (fitStep lo nn cf) acc)).1.map Prod.fst).Nodup := by
  induction ws generalizing acc with
  | nil => exact h
  | cons w rest ih => exact ih _ (insertNew_keys _ h)

theorem fitFold_snd_keys (lo nn cf : Bool) (ws : List PyStr) (acc : DictS × DictS)
    (h : (acc.2.map Prod.fst).Nodup) :
    (((ws.foldl (fitStep lo nn cf) acc)).2.map Prod.fst).Nodup := by
  induction ws generalizing acc with
  | nil => exact h
  | cons w rest ih =>
    refine ih _ ?_
    simp only [fitStep]
    split
    · exact addChars_keys _ h
    · exact h

theorem tagFold_pres {k : PyStr} {v : Nat} (l : List PyStr) (d : DictS)
    (h : dlookup k d = some v) : dlookup k (l.foldl insertNew d) = some v := by
  induction l generalizing d with
  | nil => exact h
  | cons a rest ih => exact ih _ (insertNew_pres _ h)

theorem tagFold_isSome_pres {k : PyStr} (l : List PyStr) (d : DictS)
    (h : (dlookup k d).isSome) : (dlookup k (l.foldl insertNew d)).isSome := by
  obtain ⟨v, hv⟩ := Option.isSome_iff_exists.mp h
  exact Option.isSome_iff_exists.mpr ⟨v, tagFold_pres l d hv⟩

theorem tagFold_mem {a : PyStr} (l : List PyStr) (d : DictS) (ha : a ∈ l) :
    (dlookup a (l.foldl insertNew d)).isSome := by
  induction l generalizing d with
  | nil => simp at ha
  | cons b rest ih =>
    rcases List.mem_cons.mp ha with rfl | ha2
    · exact tagFold_isSome_pres rest _ (insertNew_self d a)
    · exact ih _ ha2

theorem tagFold_vals (l : List PyStr) (d : DictS)
    (h : d.map Prod.snd = List.range d.length) :
    (l.foldl insertNew d).map Prod.snd = List.range (l.foldl insertNew d).length := by
  induction l generalizing d with
  | nil => exact h
  | cons a rest ih => exact ih _ (insertNew_vals _ h)

theorem tagFold_keys (l : List PyStr) (d : DictS)
    (h : (d.map Prod.fst).Nodup) : ((l.foldl insertNew d).map Prod.fst).Nodup := by
  induction l generalizing d with
  | nil => exact h
  | cons a rest ih => exact ih _ (insertNew_keys _ h)

/-- The seed dictionary `UNK ↦ 0` satisfies both invariants and lookup. -/
theorem seed_lookup : dlookup UNK ([(UNK, 0)] : DictS) = some 0 := by
  simp [dlookup]

theorem fit_word_unk (p : WordPreprocessor) (X y : List (List PyStr)) :
    dlookup UNK (p.fit X y).vocab_word = some 0 := by
  simp only [WordPreprocessor.fit]
  exact fitFold_fst_pres _ _ _ _ _ seed_lookup

theorem fit_char_unk (p : WordPreprocessor) (X y : List (List PyStr)) :
    dlookup UNK (p.fit X y).vocab_char = some 0 := by
  simp only [WordPreprocessor.fit]
  exact fitFold_snd_pres _ _ _ _ _ seed_lookup

end Anago

namespace Anago

/-! Totality of the sentence side of `transform` once `UNK` is present. -/

theorem transformWordId_isSome (vw : DictS) (w : PyStr)
    (h : (dlookup UNK vw).isSome) : (transformWordId vw w).isSome := by
  unfold transformWordId
  cases hw : dlookup w vw with
  | some i => simp
  | none => simpa using h

theorem getCharIds_isSome (vc : DictS) (w : PyStr)
    (h : (dlookup UNK vc).isSome) : (getCharIds vc w).isSome := by
  obtain ⟨u, hu⟩ := Option.isSome_iff_exists.mp h
  induction w with
  | nil => simp [getCharIds]
  | cons c cs ih => simp [getCharIds, hu, Option.isSome_map, ih]

theorem transformWords_isSome (p : WordPreprocessor) (sent : List PyStr)
    (hw : (dlookup UNK p.vocab_word).isSome)
    (hc : (dlookup UNK p.vocab_char).isSome) :
    (transformWords p sent).isSome := by
  induction sent with
  | nil => simp [transformWords]
  | cons w0 ws ih =>
    obtain ⟨wid, hwid⟩ := Option.isSome_iff_exists.mp
      (transformWordId_isSome p.vocab_word (normWord p.lowercase p.num_norm w0) hw)
    obtain ⟨r, hr⟩ := Option.isSome_iff_exists.mp ih
    by_cases hcf : p.char_feature
    · obtain ⟨cids, hcids⟩ := Option.isSome_iff_exists.mp
        (getCharIds_isSome p.vocab_char (normWord p.lowercase p.num_norm w0) hc)
      simp [transformWords, hwid, hcf, hcids, hr]
    · simp [transformWords, hwid, hcf, hr]

theorem transformSent_isSome (p : WordPreprocessor) (sent : List PyStr)
    (hw : (dlookup UNK p.vocab_word).isSome)
    (hc : (dlookup UNK p.vocab_char).isSome) :
    (transformSent p sent).isSome := by
  simpa [transformSent, Option.isSome_map] using transformWords_isSome p sent hw hc

/-! Tag roundtrip helpers. -/

theorem transformTags_roundtrip_sent {vt : DictS}
    (hvals : (vt.map Prod.snd).Nodup) (sent : List PyStr)
    (hmem : ∀ t ∈ sent, (dlookup t vt).isSome) :
    ∃ ids, transformTags vt sent = some ids ∧
      omap (fun i => rlookup i vt) ids = some sent := by
  induction sent with
  | nil => exact ⟨[], rfl, rfl⟩
  | cons t ts ih =>
    obtain ⟨i, hi⟩ := Option.isSome_iff_exists.mp (hmem t (by simp))
    obtain ⟨ids, hids, hinv⟩ := ih (fun u hu => hmem u (by simp [hu]))
    refine ⟨i :: ids, ?_, ?_⟩
    · simp only [transformTags, omap, hi]
      simpa [transformTags] using hids
    · simp only [omap, rlookup_dlookup hvals hi]
      simp [hinv]

theorem transformTags_roundtrip {vt : DictS}
    (hvals : (vt.map Prod.snd).Nodup) (y : List (List PyStr))
    (hmem : ∀ s ∈ y, ∀ t ∈ s, (dlookup t vt).isSome) :
    ∃ ys, omap (transformTags vt) y = some ys ∧
      List.Forall₂ (fun ids sent => omap (fun i => rlookup i vt) ids = some sent) ys y := by
  induction y with
  | nil => exact ⟨[], rfl, List.Forall₂.nil⟩
  | cons s rest ih =>
    obtain ⟨ids, hids, hinv⟩ :=
      transformTags_roundtrip_sent hvals s (hmem s (by simp))
    obtain ⟨ys, hys, hfa⟩ := ih (fun s2 hs2 => hmem s2 (by simp [hs2]))
    refine ⟨ids :: ys, ?_, List.Forall₂.cons hinv hfa⟩
    simp [omap, hids, hys]

end Anago

namespace Anago

/-- Claim C2, counterexample: the claim says a sequence longer than the
maximum is cut to its FIRST `max_len` ids, but `pad_words` (Keras
`pad_sequences` with default `truncating='pre'`) keeps the LAST
`config.num_steps` ids: on `[[1, 2, 3]]` with `num_steps = 2` it returns
`[[2, 3]]`, not `[[1, 2]]`. -/
theorem C2_padding_counterexample :
    pad_words 2 [[1, 2, 3]] = [[2, 3]] ∧ pad_words 2 [[1, 2, 3]] ≠ [[1, 2]] := by
  decide

/-- Claim C2 (amended): for a sequence shorter than the maximum, both
`pad_words` (per-sequence body `padSequencePost`) and `pad_word_chars`
(per-word body `padWordChar`) return the original sequence followed by zeros,
of length exactly the maximum; for a longer sequence `pad_word_chars` keeps
the first `max_word_len` ids while `pad_words` keeps the last
`config.num_steps` ids. The two closing equations state both behaviours at
once: `s.take m` and `s.drop (s.length - m)` reduce to `s` when
`s.length ≤ m`, and the replicated zero suffix is then `m - s.length` long;
for `m ≤ s.length` the suffix is empty and only the take/drop truncation
remains. -/
theorem C2_padding (m : Nat) (s : List Nat) :
    pad_words m [s] = [padSequencePost m s] ∧
    pad_word_chars [s] m = [padWordChar m s] ∧
    (padSequencePost m s).length = m ∧
    (padWordChar m s).length = m ∧
    padSequencePost m s = s.drop (s.length - m) ++ List.replicate (m - s.length) 0 ∧
    padWordChar m s = s.take m ++ List.replicate (m - s.length) 0 := by
  refine ⟨rfl, rfl, ?_, ?_, ?_, ?_⟩
  · simp only [padSequencePost, List.length_append, List.length_drop,
      List.length_replicate]
    omega
  · simp only [padWordChar, List.length_take, List.length_append,
      List.length_replicate]
    omega
  · simp only [padSequencePost, List.length_drop]
    congr 2
    omega
  · rcases Nat.lt_or_ge s.length m with h | h
    · have hlen : (s ++ List.replicate (m - s.length) 0).length = m := by
        simp; omega
      have h1 : (s ++ List.replicate (m - s.length) 0).take m =
          s ++ List.replicate (m - s.length) 0 :=
        List.take_of_length_le (le_of_eq hlen)
      have h2 : s.take m = s := List.take_of_length_le (le_of_lt h)
      simp [padWordChar, h1, h2]
    · have hz : m - s.length = 0 := by omega
      simp [padWordChar, hz]

/-- Claim C9, counterexample: `pad_words1` mutates its argument.
On the caller's list `[[0]]` with `max_word_len = 1`, `max_sent_len = 2`, the
statement `words += padding` leaves the caller's list as `[[0], [0]]`, so the
argument is not the same after the call. -/
theorem C9_pad_words1_counterexample : (pad_words1 [[0]] 1 2).1 ≠ [[0]] := by
  decide

/-- Claim C9 (amended): `pad_words1` is not pure in its argument: `words +=
padding` extends the caller's list object in place by the all-zero filler
rows (first equation; the argument is unchanged exactly when the padding is
empty, i.e. when `max_sent_len ≤ len(words)`), and the returned value is the
truncating slice of that extended list (second equation). As invoked by
`pad_chars` (third equation) the mutated list is the fresh intermediate
produced by `pad_word_chars`, so `pad_chars` leaves its own `dataset`
argument untouched. -/
theorem C9_pad_words1_mutation (w : List (List Nat)) (m s : Nat)
    (ds : List (List (List Nat))) :
    (pad_words1 w m s).1 = w ++ List.replicate (s - w.length) (List.replicate m 0) ∧
    (pad_words1 w m s).2 =
      (w ++ List.replicate (s - w.length) (List.replicate m 0)).take s ∧
    pad_chars ds m s =
      ds.map (fun sent => (pad_words1 (pad_word_chars sent m) m s).2) := by
    have hrep : (List.range (s - w.length)).map (fun _ => List.replicate m 0) =
        List.replicate (s - w.length) (List.replicate m 0) := by
      rw [List.map_const']
      simp
    refine ⟨?_, ?_, rfl⟩
    · simp [pad_words1, hrep]
    · simp [pad_words1, hrep]

/-- Claim C8 (confirmed): `digit_to_zero` preserves length and acts
pointwise, sending every character of the class `[0-9０１２３４５６７８９]`
(the ten ASCII digits and the ten full-width digits) to ASCII `'0'` and
leaving every other character unchanged. -/
theorem C8_digit_to_zero (w : PyStr) (i : Nat) :
    (digit_to_zero w).length = w.length ∧
    (digit_to_zero w)[i]? = (w[i]?).map (fun c => if digitClass c then '0' else c) := by
  constructor
  · simp [digit_to_zero]
  · simp [digit_to_zero]

/-- Claim C10 (confirmed): for a label sequence shorter than
`config.num_steps`, every padded step of `to_onehot` is the one-hot row of
label 0 (second equation), whose entries sum to 1 (so it is not the all-zero
row, last two conjuncts): a padded step is indistinguishable from a genuine
label with tag id 0. -/
theorem C10_onehot_padding (steps ntags : Nat) (y : List Nat) (i : Nat)
    (hy : y.length < steps) (ht : 0 < ntags) (h1 : y.length ≤ i) (h2 : i < steps) :
    to_onehot steps ntags [y] = [(padSequencePost steps y).map (to_categorical ntags)] ∧
    ((padSequencePost steps y).map (to_categorical ntags)).getD i [] =
      to_categorical ntags 0 ∧
    (to_categorical ntags 0).sum = 1 ∧
    to_categorical ntags 0 ≠ List.replicate ntags 0 := by
  obtain ⟨k, rfl⟩ : ∃ k, ntags = k + 1 := ⟨ntags - 1, by omega⟩
  refine ⟨rfl, ?_, ?_, ?_⟩
  · have hdrop : y.drop (y.length - steps) = y := by
      rw [Nat.sub_eq_zero_of_le (le_of_lt hy), List.drop_zero]
    simp only [padSequencePost, hdrop, List.map_append, List.map_replicate]
    rw [List.getD_append_right _ _ _ _ (by simpa using h1)]
    rw [List.length_map]
    exact getD_replicate_of_lt _ (by omega)
  · rw [to_categorical_succ_zero]
    simp
  · rw [to_categorical_succ_zero, List.replicate_succ]
    intro h
    have : (1 : Nat) = 0 := by injection h
    exact absurd this (by decide)

/-- Claim C10, witness at `num_steps = 3`, `ntags = 2`, label sequence `[1]`,
padded position `i = 2`. -/
theorem C10_onehot_padding_witness :
    to_onehot 3 2 [[1]] = [(padSequencePost 3 [1]).map (to_categorical 2)] ∧
    ((padSequencePost 3 [1]).map (to_categorical 2)).getD 2 [] = to_categorical 2 0 ∧
    (to_categorical 2 0).sum = 1 ∧
    to_categorical 2 0 ≠ List.replicate 2 0 :=
  C10_onehot_padding 3 2 [1] 2 (by decide) (by decide) (by decide) (by decide)

end Anago

namespace Anago

/-- Claim C1, counterexample: the claim says a word present in the supplied
vocabulary gets its own id and an out-of-vocabulary word never raises, but
Python evaluates `vocab_words[PAD]` — the default argument of the inner
`get` — eagerly on every call. With `vocab_words` lacking the `PAD` key the
closure raises `KeyError` (here `none`) even for the in-vocabulary word
`cat`, instead of yielding its id 0. -/
theorem C1_word_id_counterexample :
    get_processing_word (some [(['c', 'a', 't'], 0)]) none false false ['c', 'a', 't'] =
      none ∧
    dlookup ['c', 'a', 't'] [(['c', 'a', 't'], 0)] = some 0 := by
  decide

/-- Claim C1 (amended): provided `PAD` is a key of the supplied word
vocabulary, the closure never raises and yields the claimed fallback chain —
`vocab_words[n]` for the normalized form `n` when present, else
`vocab_words[UNK]` when present, else `vocab_words[PAD]` (first equation:
Python's `get` chain is exactly this `Option.getD` chain, and under `hpad`
the final default `(dlookup PAD vw).getD 0` is the actual `PAD` id); when
moreover the vocabulary's values are exactly `0, ..., size-1` the returned
word id is a valid index below the vocabulary size. The last equation
relates the full closure (no char vocabulary) to this word-id step applied
to the normalized word. Without the `PAD` key the chain does not hold: see
the counterexample. -/
theorem C1_word_id_fallback (vw : DictS) (lc : Bool) (w : PyStr)
    (hpad : (dlookup PAD vw).isSome)
    (hrange : List.Perm (vw.map Prod.snd) (List.range vw.length)) :
    processWordId vw w =
      some ((dlookup w vw).getD ((dlookup UNK vw).getD ((dlookup PAD vw).getD 0))) ∧
    (processWordId vw w).isSome ∧
    (processWordId vw w).getD 0 < vw.length ∧
    get_processing_word (some vw) none lc false w =
      (processWordId vw (normWord lc true w)).map
        (fun i => PWRes.wordOnly (WordOut.id i)) := by
  obtain ⟨padId, hp⟩ := Option.isSome_iff_exists.mp hpad
  have heq : processWordId vw w =
      some ((dlookup w vw).getD ((dlookup UNK vw).getD padId)) := by
    simp [processWordId, hp]
  refine ⟨?_, ?_, ?_, rfl⟩
  · rw [heq, hp]
    rfl
  · rw [heq]
    rfl
  · rw [heq]
    have hv : ((dlookup w vw).getD ((dlookup UNK vw).getD padId)) ∈
        vw.map Prod.snd := by
      cases hw : dlookup w vw with
      | some i => simpa using dlookup_mem_vals hw
      | none =>
        cases hu : dlookup UNK vw with
        | some u => simpa using dlookup_mem_vals hu
        | none => simpa using dlookup_mem_vals hp
    simpa using List.mem_range.mp (hrange.mem_iff.mp hv)

/-- Claim C1, witness: vocabulary with `UNK ↦ 0` and `PAD ↦ 1`, word `cat`
(out of vocabulary, resolved through the `UNK` fallback). -/
theorem C1_word_id_fallback_witness :
    processWordId [(UNK, 0), (PAD, 1)] ['c', 'a', 't'] =
      some ((dlookup ['c', 'a', 't'] [(UNK, 0), (PAD, 1)]).getD
        ((dlookup UNK [(UNK, 0), (PAD, 1)]).getD
          ((dlookup PAD [(UNK, 0), (PAD, 1)]).getD 0))) ∧
    (processWordId [(UNK, 0), (PAD, 1)] ['c', 'a', 't']).isSome ∧
    (processWordId [(UNK, 0), (PAD, 1)] ['c', 'a', 't']).getD 0 <
      ([(UNK, 0), (PAD, 1)] : DictS).length ∧
    get_processing_word (some [(UNK, 0), (PAD, 1)]) none false false ['c', 'a', 't'] =
      (processWordId [(UNK, 0), (PAD, 1)] (normWord false true ['c', 'a', 't'])).map
        (fun i => PWRes.wordOnly (WordOut.id i)) :=
  C1_word_id_fallback [(UNK, 0), (PAD, 1)] false ['c', 'a', 't']
    (by decide) (by decide)

/-- Claim C3, counterexample: the claim says `_get_char_ids` omits
out-of-vocabulary characters, but on the vocabulary `UNK ↦ 0, a ↦ 1` and the
word `ab` it returns `[1, 0]` — the unknown `b` is replaced by the `UNK` id
0, giving a list of the word's full length 2, not the claimed `[1]` of
length 1. -/
theorem C3_char_ids_counterexample :
    getCharIds [(UNK, 0), (['a'], 1)] ['a', 'b'] = some [1, 0] ∧
    (some [1, 0] : Option (List Nat)) ≠ some [1] := by
  decide

/-- Helper: the closure's character loop keeps exactly the in-vocabulary
characters, mapping each to its own id, once the eagerly evaluated `UNK`
default is available. -/
theorem charIdsClosure_filter {vc : DictS} {u : Nat}
    (huv : dlookup UNK vc = some u) (w : PyStr) :
    charIdsClosure vc w =
      some ((w.filter (fun c => (dlookup [c] vc).isSome)).map
        (fun c => (dlookup [c] vc).getD 0)) := by
  induction w with
  | nil => rfl
  | cons c cs ih =>
    by_cases hc : (dlookup [c] vc).isSome
    · obtain ⟨i, hi⟩ := Option.isSome_iff_exists.mp hc
      simp [charIdsClosure, hc, huv, ih, List.filter_cons, hi]
    · simp [charIdsClosure, hc, ih, List.filter_cons]

/-- Helper: `_get_char_ids` maps every character, falling back to the `UNK`
id for absent ones. -/
theorem getCharIds_map {vc : DictS} {u : Nat}
    (huv : dlookup UNK vc = some u) (w : PyStr) :
    getCharIds vc w =
      some (w.map (fun c => (dlookup [c] vc).getD ((dlookup UNK vc).getD 0))) := by
  induction w with
  | nil => rfl
  | cons c cs ih => simp [getCharIds, huv, ih]

/-- Claim C3 (amended): the two character-id paths disagree. The closure
built by `get_processing_word` (`charIdsClosure`) silently omits characters
absent from the vocabulary, its result being the in-vocabulary characters'
ids — so its length is the number of in-vocabulary characters; but
`WordPreprocessor._get_char_ids` (`getCharIds`, used by `transform`) maps
every character, substituting the `UNK` id for absent ones — so its length
is the full word length. Both need the `UNK` key to succeed on any word with
an in-vocabulary character (the eagerly evaluated default), granted here by
`hu`. -/
theorem C3_char_ids (vc : DictS) (w : PyStr) (hu : (dlookup UNK vc).isSome) :
    charIdsClosure vc w =
      some ((w.filter (fun c => (dlookup [c] vc).isSome)).map
        (fun c => (dlookup [c] vc).getD 0)) ∧
    getCharIds vc w =
      some (w.map (fun c => (dlookup [c] vc).getD ((dlookup UNK vc).getD 0))) ∧
    (getCharIds vc w).map List.length = some w.length := by
  obtain ⟨u, huv⟩ := Option.isSome_iff_exists.mp hu
  refine ⟨charIdsClosure_filter huv w, getCharIds_map huv w, ?_⟩
  rw [getCharIds_map huv w]
  simp

/-- Claim C3, witness: vocabulary `UNK ↦ 0, a ↦ 1`, word `ab`: the closure
path keeps only `a`'s id, the `_get_char_ids` path substitutes the `UNK` id
for `b`. -/
theorem C3_char_ids_witness :
    charIdsClosure [(UNK, 0), (['a'], 1)] ['a', 'b'] =
      some (((['a', 'b'] : PyStr).filter
        (fun c => (dlookup [c] [(UNK, 0), (['a'], 1)]).isSome)).map
        (fun c => (dlookup [c] [(UNK, 0), (['a'], 1)]).getD 0)) ∧
    getCharIds [(UNK, 0), (['a'], 1)] ['a', 'b'] =
      some ((['a', 'b'] : PyStr).map
        (fun c => (dlookup [c] [(UNK, 0), (['a'], 1)]).getD
          ((dlookup UNK [(UNK, 0), (['a'], 1)]).getD 0))) ∧
    (getCharIds [(UNK, 0), (['a'], 1)] ['a', 'b']).map List.length =
      some (['a', 'b'] : PyStr).length :=
  C3_char_ids [(UNK, 0), (['a'], 1)] ['a', 'b'] (by decide)

/-- Claim C5 (code bug): the word-collection stage of `build_vocab` does NOT
lowercase. On a dataset whose only sentence is `["The"]` (labels `["O"]`),
the collected word set contains the raw token `The` and not its lowercased
form `the` — even though `build_vocab` constructs
`get_processing_word(lowercase=True)` on its first line (and never applies
it), and the subsequent GloVe intersection expects lowercased entries. The
last conjunct records that `the` is indeed the lowercased form of `The`. -/
theorem C5_build_vocab_lowercase_bug :
    ['T', 'h', 'e'] ∈ build_vocab_words
      (Dataset.mk [[['T', 'h', 'e']]] [[['O']]]) (Dataset.mk [] []) (Dataset.mk [] []) ∧
    ['t', 'h', 'e'] ∉ build_vocab_words
      (Dataset.mk [[['T', 'h', 'e']]] [[['O']]]) (Dataset.mk [] []) (Dataset.mk [] []) ∧
    lowerWord true ['T', 'h', 'e'] = ['t', 'h', 'e'] := by
  decide

end Anago

namespace Anago

/-- Claim C4 (confirmed): after a `fit`, `transform` succeeds exactly when
every label of every input label sequence is a key of the tag vocabulary —
the sentence side never raises (first equation: success is the boolean
conjunction over the tags alone, for arbitrary input sentences `X2`), there
is no fallback for tags, and every word whose normalized form is absent from
the fitted word vocabulary maps to the `UNK` id 0 (second equation: the
word-id step is total with `UNK`-fallback, `fit` having seeded `UNK ↦ 0`). -/
theorem C4_transform_totality (p0 : WordPreprocessor)
    (X y X2 y2 : List (List PyStr)) (w : PyStr) :
    ((p0.fit X y).transform X2 y2).isSome =
      y2.all (fun sent => sent.all
        (fun t => (dlookup t (p0.fit X y).vocab_tag).isSome)) ∧
    transformWordId (p0.fit X y).vocab_word w =
      some ((dlookup w (p0.fit X y).vocab_word).getD 0) := by
  have hw := fit_word_unk p0 X y
  have hc := fit_char_unk p0 X y
  constructor
  · obtain ⟨sents, hs⟩ := omap_total
      (fun s (_ : s ∈ X2) => transformSent_isSome (p0.fit X y) s
        (by simp [hw]) (by simp [hc]))
    have hcong : y2.all (fun sent => (transformTags (p0.fit X y).vocab_tag sent).isSome) =
        y2.all (fun sent => sent.all
          (fun t => (dlookup t (p0.fit X y).vocab_tag).isSome)) :=
      all_congr_of_eq y2 (fun s _ => by
        simpa [transformTags] using
          omap_isSome_all (fun t => dlookup t (p0.fit X y).vocab_tag) s)
    rw [← hcong, ← omap_isSome_all]
    simp only [WordPreprocessor.transform, hs]
    cases hy2 : omap (transformTags (p0.fit X y).vocab_tag) y2 <;> simp
  · cases hl : dlookup w (p0.fit X y).vocab_word with
    | some i => simp [transformWordId, hl]
    | none => simp [transformWordId, hl, hw]

/-- Claim C6 (confirmed): after any `fit`, the word and char vocabularies map
`UNK` to index 0, and each of the three vocabularies has pairwise-distinct
keys whose assigned values are, in insertion order, exactly
`0, 1, ..., size-1` — so each vocabulary is an injective mapping with unique
contiguous indices starting at 0 (distinct keys hold distinct positions, and
the value list `List.range size` has no duplicates). The Python `set`
iteration order is unspecified; the embedding fixes first-occurrence order,
and every conjunct is independent of that choice. -/
theorem C6_fit_vocab_invariants (p0 : WordPreprocessor) (X y : List (List PyStr)) :
    dlookup UNK (p0.fit X y).vocab_word = some 0 ∧
    dlookup UNK (p0.fit X y).vocab_char = some 0 ∧
    (p0.fit X y).vocab_word.map Prod.snd =
      List.range (p0.fit X y).vocab_word.length ∧
    (p0.fit X y).vocab_char.map Prod.snd =
      List.range (p0.fit X y).vocab_char.length ∧
    (p0.fit X y).vocab_tag.map Prod.snd =
      List.range (p0.fit X y).vocab_tag.length ∧
    ((p0.fit X y).vocab_word.map Prod.fst).Nodup ∧
    ((p0.fit X y).vocab_char.map Prod.fst).Nodup ∧
    ((p0.fit X y).vocab_tag.map Prod.fst).Nodup := by
  refine ⟨fit_word_unk p0 X y, fit_char_unk p0 X y, ?_, ?_, ?_, ?_, ?_, ?_⟩
  · simp only [WordPreprocessor.fit]
    exact fitFold_fst_vals _ _ _ _ _ (by decide)
  · simp only [WordPreprocessor.fit]
    exact fitFold_snd_vals _ _ _ _ _ (by decide)
  · simp only [WordPreprocessor.fit]
    exact tagFold_vals _ _ (by decide)
  · simp only [WordPreprocessor.fit]
    exact fitFold_fst_keys _ _ _ _ _ (by decide)
  · simp only [WordPreprocessor.fit]
    exact fitFold_snd_keys _ _ _ _ _ (by decide)
  · simp only [WordPreprocessor.fit]
    exact tagFold_keys _ _ (by decide)

/-- Claim C7 (confirmed): for every dataset `(X, y)`, after `fit X y` the
call `transform X y` succeeds, and element by element (`List.Forall₂` pairs
each produced tag-id sequence with its original label sequence)
`inverse_transform` maps the tag-id sequence back to the original tag
sequence exactly. -/
theorem C7_tag_roundtrip (p0 : WordPreprocessor) (X y : List (List PyStr)) :
    ∃ sents ys, (p0.fit X y).transform X y = some (sents, ys) ∧
      List.Forall₂ (fun ids sent =>
        (p0.fit X y).inverse_transform ids = some sent) ys y := by
  have hw := fit_word_unk p0 X y
  have hc := fit_char_unk p0 X y
  have hvals : ((p0.fit X y).vocab_tag.map Prod.snd).Nodup := by
    have h1 : (p0.fit X y).vocab_tag.map Prod.snd =
        List.range (p0.fit X y).vocab_tag.length := by
      simp only [WordPreprocessor.fit]
      exact tagFold_vals _ _ (by decide)
    rw [h1]
    exact List.nodup_range _
  have hmem : ∀ s ∈ y, ∀ t ∈ s, (dlookup t (p0.fit X y).vocab_tag).isSome := by
    intro s hs t ht
    have hj : t ∈ y.flatten := List.mem_flatten.mpr ⟨s, hs, ht⟩
    simp only [WordPreprocessor.fit]
    exact tagFold_mem _ _ hj
  obtain ⟨ys, hys, hfa⟩ := transformTags_roundtrip hvals y hmem
  obtain ⟨sents, hs⟩ := omap_total
    (fun s (_ : s ∈ X) => transformSent_isSome (p0.fit X y) s
      (by simp [hw]) (by simp [hc]))
  refine ⟨sents, ys, ?_, ?_⟩
  · simp only [WordPreprocessor.transform, hs, hys]
  · simpa only [WordPreprocessor.inverse_transform] using hfa

end Anago
